import Mathlib

/-!
Verification of the feature-extraction core of `kndetect` (file
`kndetect/features.py`).  Observation data, principal-component templates and
all intermediate float quantities are embedded as exact rationals; the only
real-valued step is the final square root in `calc_residual`.  The call to
`scipy.optimize.minimize` is modelled as an abstract deterministic function
(`Minimizer`) from the full argument pack of the call to a coefficient vector
whose shape matches the initial guess, which is the documented contract of the
solver.
-/

/-- One row of a light-curve dataframe: columns MJD, FLUXCAL, FLUXCALERR, FLT. -/
structure Obs where
  mjd : ℚ
  fluxcal : ℚ
  fluxcalerr : ℚ
  flt : String
deriving DecidableEq

/-- Round to nearest integer, ties to even: the behaviour of `np.around`. -/
def roundTiesEven (q : ℚ) : ℤ :=
  let f := ⌊q⌋
  let r := q - f
  if r < 1 / 2 then f
  else if 1 / 2 < r then f + 1
  else if f % 2 = 0 then f else f + 1

/-- Index of the first maximal element of a list: the behaviour of `np.argmax`
(0 on the empty list, where numpy raises). -/
def npArgmax : List ℚ → ℕ
  | [] => 0
  | [_] => 0
  | x :: y :: rest =>
    if (y :: rest).getD (npArgmax (y :: rest)) 0 > x then npArgmax (y :: rest) + 1 else 0

/-- Elementwise sum of two equal-length vectors (`np.add`). -/
def vecAdd (a b : List ℚ) : List ℚ := List.zipWith (fun x y => x + y) a b

/-- Scalar multiple of a vector. -/
def vecSmul (c : ℚ) (a : List ℚ) : List ℚ := a.map (fun x => c * x)

/-- Loop body of `calc_prediction`: running sum of `b * a` over the zipped
(template row, coefficient) pairs. -/
def calc_prediction_go : List ℚ → List (List ℚ × ℚ) → List ℚ
  | acc, [] => acc
  | acc, ab :: rest => calc_prediction_go (vecAdd acc (vecSmul ab.2 ab.1)) rest

/-- `calc_prediction(coeff, pcs_arr)`: the linear combination `Σ_i coeff_i * pcs_i`.
The numpy code starts from a broadcast scalar zero; here the accumulator starts
as the zero vector of the template length. -/
def calc_prediction (coeff : List ℚ) (pcs_arr : List (List ℚ)) : List ℚ :=
  calc_prediction_go (List.replicate (pcs_arr.headD []).length 0) (pcs_arr.zip coeff)

/-- Root names of the per-band features (`names_root` in `get_feature_names`). -/
def names_root (npcs : ℕ) : List String :=
  (List.range npcs).map (fun i => "coeff" ++ toString (i + 1) ++ "_") ++
    [("residuo_"), ("maxflux_")]

/-- `get_feature_names(npcs)`: the comprehension
`[i + j for j in ["g", "r"] for i in names_root]` (outer loop over the two
hard-coded bands, inner loop over the field roots). -/
def get_feature_names (npcs : ℕ) : List String :=
  ((["g", "r"]).map (fun j => (names_root npcs).map (fun i => i ++ j))).flatten

/-- Modelled from the spec: the name list that the claim's reading demands,
grouped by field across bands - for each field root in order, that field's
name for every band before the next field's names. -/
def get_feature_names_by_field (npcs : ℕ) : List String :=
  ((names_root npcs).map (fun i => (["g", "r"]).map (fun j => i ++ j))).flatten

/-- `np.take(y_pred, i)` for a nonnegative index (the only case the program
reaches, see the index-bound theorem): list lookup with default 0. -/
def npTake (y_pred : List ℚ) (i : ℤ) : ℚ := y_pred.getD i.toNat 0

/-- `calc_loss`: reconstruction term plus weighted regularization term. -/
def calc_loss (coeff : List ℚ) (pcs_arr : List (List ℚ))
    (light_curve_flux light_curve_err : List ℚ)
    (map_dates_to_arr_index : List ℤ) (regularization_weight : ℚ)
    (low_var_indices : Option (List ℕ)) : ℚ :=
  let y_pred := calc_prediction coeff pcs_arr
  let real_flux := map_dates_to_arr_index.map (fun i => npTake y_pred i)
  let reconstruction_loss :=
    (List.zipWith (fun d e => d ^ 2 / e ^ 2)
      (List.zipWith (fun a b => a - b) real_flux light_curve_flux)
      light_curve_err).sum
  let regularization_term : ℚ :=
    match low_var_indices with
    | none => 0
    | some idxs => (idxs.map (fun i => (coeff.getD i 0) ^ 2)).sum
  let regularization_term :=
    if coeff.getD 0 0 < 0 then regularization_term + (coeff.getD 0 0) ^ 2
    else regularization_term
  reconstruction_loss + regularization_term * regularization_weight

/-- The loss exactly as the spec words it: `Σ_j ((pred[m_j] - y_j) / σ_j)^2`
plus `w × (Σ_{i ∈ [1, 2]} c_i^2 + (if c_0 < 0 then c_0^2 else 0))`. -/
def spec_loss (coeff : List ℚ) (pcs_arr : List (List ℚ)) (y σ : List ℚ)
    (m : List ℤ) (w : ℚ) : ℚ :=
  let pred := calc_prediction coeff pcs_arr
  ((List.range y.length).map
      (fun j => ((npTake pred (m.getD j 0) - y.getD j 0) / σ.getD j 0) ^ 2)).sum +
    w * ((([1, 2] : List ℕ).map (fun i => (coeff.getD i 0) ^ 2)).sum +
      if coeff.getD 0 0 < 0 then (coeff.getD 0 0) ^ 2 else 0)

/-- Mean of the squared error-normalized fit discrepancies (the quantity under
the square root in `calc_residual`). -/
def calc_residual_mean (coeff : List ℚ) (pcs_arr : List (List ℚ))
    (light_curve_flux light_curve_err : List ℚ)
    (map_dates_to_arr_index : List ℤ) : ℚ :=
  let y_pred := calc_prediction coeff pcs_arr
  let real_flux := map_dates_to_arr_index.map (fun i => npTake y_pred i)
  let terms :=
    List.zipWith (fun d e => d ^ 2 / e ^ 2)
      (List.zipWith (fun a b => a - b) real_flux light_curve_flux)
      light_curve_err
  terms.sum / terms.length

/-- `calc_residual`: root of the mean squared error-normalized discrepancy. -/
noncomputable def calc_residual (coeff : List ℚ) (pcs_arr : List (List ℚ))
    (light_curve_flux light_curve_err : List ℚ)
    (map_dates_to_arr_index : List ℤ) : ℝ :=
  Real.sqrt ((calc_residual_mean coeff pcs_arr light_curve_flux light_curve_err
    map_dates_to_arr_index : ℚ) : ℝ)

/-- The full argument pack of the `scipy.optimize.minimize` call in
`predict_band_features`: initial guess, box bounds, and the `args` tuple
closed over by `calc_loss`. -/
structure MinProblem where
  x0 : List ℚ
  bounds : List (ℚ × ℚ)
  pcs : List (List ℚ)
  flux : List ℚ
  err : List ℚ
  idxMap : List ℤ
  regWeight : ℚ
  lowVar : Option (List ℕ)

/-- Abstract model of the bounded solver: a deterministic function of the full
argument pack whose result has the shape of the initial guess (the documented
contract of `scipy.optimize.minimize`). -/
structure Minimizer where
  run : MinProblem → List ℚ
  run_length : ∀ p : MinProblem, (run p).length = p.x0.length

/-- A concrete minimizer instance (returns the zero vector), used for
evaluating the embedding at concrete inputs. -/
def zeroMin : Minimizer :=
  ⟨fun p => p.x0.map (fun _ => 0), fun p => by simp⟩

/-- FLUXCAL column of a band dataframe. -/
def band_fluxes (band_df : List Obs) : List ℚ := band_df.map Obs.fluxcal

/-- `max_loc = np.argmax(band_df["FLUXCAL"])`. -/
def band_max_loc (band_df : List Obs) : ℕ := npArgmax (band_fluxes band_df)

/-- `max_flux = band_df["FLUXCAL"].iloc[max_loc]`. -/
def band_max_flux (band_df : List Obs) : ℚ :=
  (band_fluxes band_df).getD (band_max_loc band_df) 0

/-- `mid_point_date = band_df["MJD"].iloc[max_loc]`. -/
def mid_point_date (band_df : List Obs) : ℚ :=
  (band_df.map Obs.mjd).getD (band_max_loc band_df) 0

/-- Window selection: observations with timestamps strictly inside the window
of extent `time_bin * (npts - 1)` centered on the peak timestamp. -/
def windowed_band (band_df : List Obs) (time_bin : ℚ) (npts : ℕ) : List Obs :=
  let mid := mid_point_date band_df
  let d := time_bin * ((npts : ℚ) - 1)
  band_df.filter (fun o => decide (mid - d / 2 < o.mjd ∧ o.mjd < mid + d / 2))

/-- Nearest template-grid index of one timestamp:
`round((t - mid_point_date) / time_bin + (npts - 1) / 2)`. -/
def date_index (mid time_bin : ℚ) (npts : ℕ) (t : ℚ) : ℤ :=
  roundTiesEven ((t - mid) / time_bin + ((npts : ℚ) - 1) / 2)

/-- `map_dates_to_arr_index` of `predict_band_features`. -/
def map_dates_to_arr_index (band_df : List Obs) (mid time_bin : ℚ) (npts : ℕ) :
    List ℤ :=
  band_df.map (fun o => date_index mid time_bin npts o.mjd)

/-- `regularization_weight = np.square(max_flux / err_bar_of_max_flux)`: the
pre-window peak flux over the error bar at the post-window peak location. -/
def regularization_weight (band_df : List Obs) (time_bin : ℚ) (npts : ℕ) : ℚ :=
  let bd2 := windowed_band band_df time_bin npts
  let max_loc2 := npArgmax (band_fluxes bd2)
  (band_max_flux band_df / (bd2.map Obs.fluxcalerr).getD max_loc2 0) ^ 2

/-- The fit branch of `predict_band_features`: normalize, build the argument
pack, run the solver, and return coefficients + residual + peak flux. -/
noncomputable def fitted_band_features (m : Minimizer) (band_df : List Obs)
    (pcs : List (List ℚ)) (time_bin : ℚ) (low_var_indices : Option (List ℕ)) :
    List ℝ :=
  let num_pcs := pcs.length
  let npts := (pcs.headD []).length
  let max_flux := band_max_flux band_df
  let bd2 := windowed_band band_df time_bin npts
  let idx := map_dates_to_arr_index bd2 (mid_point_date band_df) time_bin npts
  let initial_guess := List.replicate num_pcs ((1 : ℚ) / 2)
  let regw := regularization_weight band_df time_bin npts
  let normalized_flux := (band_fluxes bd2).map (fun f => f / max_flux)
  let normalized_err_bars := (bd2.map Obs.fluxcalerr).map (fun e => e / max_flux)
  let bnds := List.replicate num_pcs ((-2 : ℚ), (2 : ℚ))
  let coeff := m.run ⟨initial_guess, bnds, pcs, normalized_flux,
    normalized_err_bars, idx, regw, low_var_indices⟩
  coeff.map (Rat.cast : ℚ → ℝ) ++
    [calc_residual coeff pcs normalized_flux normalized_err_bars idx,
      (max_flux : ℝ)]

/-- `predict_band_features`: empty-band branch, the eligibility gate, and the
two nonempty branches. -/
noncomputable def predict_band_features (m : Minimizer) (band_df : List Obs)
    (pcs : List (List ℚ)) (time_bin flux_lim : ℚ)
    (low_var_indices : Option (List ℕ)) : List ℝ :=
  let num_pcs := pcs.length
  let npts := (pcs.headD []).length
  if band_df.length = 0 then
    List.replicate ((get_feature_names num_pcs).length / 2) (0 : ℝ)
  else
    if band_max_flux band_df > flux_lim ∧ 2 ≤ (windowed_band band_df time_bin npts).length
    then fitted_band_features m band_df pcs time_bin low_var_indices
    else List.replicate num_pcs (0 : ℝ) ++ [(0 : ℝ), (0 : ℝ)]

/-- `extract_features_all_bands`: concatenate the per-band features over the
filter list, always with `low_var_indices = [1, 2]`. -/
noncomputable def extract_features_all_bands (m : Minimizer)
    (pcs : List (List ℚ)) (filters : List String) (lc : List Obs)
    (flux_lim time_bin : ℚ) : List ℝ :=
  (filters.map (fun band =>
    predict_band_features m (lc.filter (fun o => decide (o.flt = band)))
      pcs time_bin flux_lim (some [1, 2]))).flatten

/-- Uniform rescaling of every flux and flux-error value of a band by `k`. -/
def scaleObs (k : ℚ) (band_df : List Obs) : List Obs :=
  band_df.map (fun o => ⟨o.mjd, k * o.fluxcal, k * o.fluxcalerr, o.flt⟩)

/-- Concrete template matrix with three components of length 3. -/
def pcs3 : List (List ℚ) := [[1, 1, 1], [1, 1, 1], [1, 1, 1]]

/-- Concrete band with one bright observation (peak flux 500 at the window
midpoint): the windowed count is 1, so the eligibility gate fails. -/
def c1bd : List Obs := [⟨0, 500, 1, "g"⟩]

/-- Concrete band with two bright observations at the same timestamp: every
coefficient vector leaves a nonzero fit discrepancy at the shared grid index. -/
def cexBd : List Obs := [⟨0, 300, 1, "g"⟩, ⟨0, 300, 1, "g"⟩]

/-- Concrete template matrix with one component of length 3. -/
def pcs1 : List (List ℚ) := [[1, 1, 1]]

/- ------------------------------------------------------------------ -/
/- Helper lemmas.                                                      -/
/- ------------------------------------------------------------------ -/

theorem length_names_root (npcs : ℕ) : (names_root npcs).length = npcs + 2 := by
  simp [names_root]

theorem length_get_feature_names (npcs : ℕ) :
    (get_feature_names npcs).length = 2 * (npcs + 2) := by
  simp [get_feature_names, length_names_root]
  ring

theorem replicate_zero_split (n : ℕ) :
    List.replicate (n + 2) (0 : ℝ) = List.replicate n (0 : ℝ) ++ [(0 : ℝ), (0 : ℝ)] := by
  rw [List.replicate_add]
  rfl

theorem predict_band_features_of_ne_nil (m : Minimizer) (band_df : List Obs)
    (pcs : List (List ℚ)) (tb lim : ℚ) (lvi : Option (List ℕ))
    (hbd : band_df ≠ []) :
    predict_band_features m band_df pcs tb lim lvi =
      if band_max_flux band_df > lim ∧
          2 ≤ (windowed_band band_df tb (pcs.headD []).length).length
      then fitted_band_features m band_df pcs tb lvi
      else List.replicate pcs.length (0 : ℝ) ++ [(0 : ℝ), (0 : ℝ)] := by
  simp only [predict_band_features]
  rw [if_neg (by simpa using hbd)]

theorem predict_band_features_length (m : Minimizer) (band_df : List Obs)
    (pcs : List (List ℚ)) (tb lim : ℚ) (lvi : Option (List ℕ)) :
    (predict_band_features m band_df pcs tb lim lvi).length = pcs.length + 2 := by
  by_cases h0 : band_df.length = 0
  · simp only [predict_band_features, if_pos h0]
    rw [List.length_replicate, length_get_feature_names]
    omega
  · simp only [predict_band_features, if_neg h0]
    split
    · simp only [fitted_band_features]
      rw [List.length_append, List.length_map, Minimizer.run_length]
      simp
    · simp

theorem extract_features_all_bands_length (m : Minimizer)
    (pcs : List (List ℚ)) (filters : List String) (lc : List Obs)
    (lim tb : ℚ) :
    (extract_features_all_bands m pcs filters lc lim tb).length =
      filters.length * (pcs.length + 2) := by
  induction filters with
  | nil => simp [extract_features_all_bands]
  | cons b fs ih =>
    simp only [extract_features_all_bands, List.map_cons, List.flatten_cons,
      List.length_append, List.length_cons] at ih ⊢
    rw [predict_band_features_length, ih]
    ring

/- ------------------------------------------------------------------ -/
/- Claims C1, C4, C5, C6, C9, C10.                                     -/
/- ------------------------------------------------------------------ -/

/-- C1: for every nonempty band dataframe, a fit is attempted (the fit branch
is taken) exactly when the pre-window maximum flux exceeds `flux_lim` and at
least two observations survive windowing; otherwise the result is the zero
coefficient vector of length P followed by residual 0 and peak flux 0,
regardless of the data values. -/
theorem claim_C1 (m : Minimizer) (band_df : List Obs) (pcs : List (List ℚ))
    (tb lim : ℚ) (lvi : Option (List ℕ)) (hbd : band_df ≠ []) :
    predict_band_features m band_df pcs tb lim lvi =
      if band_max_flux band_df > lim ∧
          2 ≤ (windowed_band band_df tb (pcs.headD []).length).length
      then fitted_band_features m band_df pcs tb lvi
      else List.replicate pcs.length (0 : ℝ) ++ [(0 : ℝ), (0 : ℝ)] :=
  predict_band_features_of_ne_nil m band_df pcs tb lim lvi hbd

/-- Witness for C1 at a concrete input: a single bright observation passes the
flux check but fails the windowed-count check, so the output is the zero
feature vector. -/
theorem claim_C1_witness :
    predict_band_features zeroMin c1bd pcs3 (1 / 4) 200 (some [1, 2]) =
      List.replicate 3 (0 : ℝ) ++ [(0 : ℝ), (0 : ℝ)] := by
  have h := claim_C1 zeroMin c1bd pcs3 (1 / 4) 200 (some [1, 2]) (by simp [c1bd])
  rw [h, if_neg]
  · rfl
  · exact of_decide_eq_true (by with_unfolding_all rfl)

/-- C4 counterexample: the name list the code produces at P = 3 is not grouped
by field across bands (the claimed ordering) - it differs from the
field-grouped list the spec sentence describes. -/
theorem claim_C4_counterexample :
    get_feature_names 3 ≠ get_feature_names_by_field 3 := by decide

/-- C4 as amended: the names are grouped by band across fields - all of band
g's names (coeff roots in order, then residuo, then maxflux) come first,
followed by all of band r's names - and this band-major ordering is preserved
exactly in the assembled output: the per-object feature vector of
`extract_features_all_bands` over the bands g, r is the g-band feature block
followed by the r-band feature block, each block exactly as long as the
matching name block. -/
theorem claim_C4_amended (npcs : ℕ) (m : Minimizer) (pcs : List (List ℚ))
    (lc : List Obs) (lim tb : ℚ) (hP : pcs.length = npcs) :
    get_feature_names npcs =
        (names_root npcs).map (fun i => i ++ "g") ++
          (names_root npcs).map (fun i => i ++ "r") ∧
      extract_features_all_bands m pcs ["g", "r"] lc lim tb =
        predict_band_features m (lc.filter (fun o => decide (o.flt = "g")))
            pcs tb lim (some [1, 2]) ++
          predict_band_features m (lc.filter (fun o => decide (o.flt = "r")))
            pcs tb lim (some [1, 2]) ∧
      ((names_root npcs).map (fun i => i ++ "g")).length =
        (predict_band_features m (lc.filter (fun o => decide (o.flt = "g")))
          pcs tb lim (some [1, 2])).length ∧
      ((names_root npcs).map (fun i => i ++ "r")).length =
        (predict_band_features m (lc.filter (fun o => decide (o.flt = "r")))
          pcs tb lim (some [1, 2])).length := by
  refine ⟨by simp [get_feature_names], ?_, ?_, ?_⟩
  · simp [extract_features_all_bands]
  · rw [List.length_map, length_names_root, predict_band_features_length, hP]
  · rw [List.length_map, length_names_root, predict_band_features_length, hP]

/-- Witness for the amended C4 at a concrete input. -/
theorem claim_C4_amended_witness :
    get_feature_names 3 =
        (names_root 3).map (fun i => i ++ "g") ++
          (names_root 3).map (fun i => i ++ "r") ∧
      extract_features_all_bands zeroMin pcs3 ["g", "r"] ([] : List Obs) 200
          (1 / 4) =
        predict_band_features zeroMin
            (([] : List Obs).filter (fun o => decide (o.flt = "g")))
            pcs3 (1 / 4) 200 (some [1, 2]) ++
          predict_band_features zeroMin
            (([] : List Obs).filter (fun o => decide (o.flt = "r")))
            pcs3 (1 / 4) 200 (some [1, 2]) ∧
      ((names_root 3).map (fun i => i ++ "g")).length =
        (predict_band_features zeroMin
          (([] : List Obs).filter (fun o => decide (o.flt = "g")))
          pcs3 (1 / 4) 200 (some [1, 2])).length ∧
      ((names_root 3).map (fun i => i ++ "r")).length =
        (predict_band_features zeroMin
          (([] : List Obs).filter (fun o => decide (o.flt = "r")))
          pcs3 (1 / 4) 200 (some [1, 2])).length :=
  claim_C4_amended 3 zeroMin pcs3 ([] : List Obs) 200 (1 / 4) (by rfl)

/-- C5: for the two bands g, r and P = 3 components the assembled per-object
feature vector has length 10, and `get_feature_names` returns exactly the ten
names in band-major order. -/
theorem claim_C5 (m : Minimizer) (pcs : List (List ℚ)) (lc : List Obs)
    (lim tb : ℚ) (h3 : pcs.length = 3) :
    (extract_features_all_bands m pcs ["g", "r"] lc lim tb).length = 10 ∧
      get_feature_names 3 =
        ["coeff1_g", "coeff2_g", "coeff3_g", "residuo_g", "maxflux_g",
          "coeff1_r", "coeff2_r", "coeff3_r", "residuo_r", "maxflux_r"] := by
  constructor
  · rw [extract_features_all_bands_length, h3]
    rfl
  · decide

/-- Witness for C5 at a concrete input. -/
theorem claim_C5_witness :
    (extract_features_all_bands zeroMin pcs3 ["g", "r"] [] 200 (1 / 4)).length = 10 ∧
      get_feature_names 3 =
        ["coeff1_g", "coeff2_g", "coeff3_g", "residuo_g", "maxflux_g",
          "coeff1_r", "coeff2_r", "coeff3_r", "residuo_r", "maxflux_r"] :=
  claim_C5 zeroMin pcs3 [] 200 (1 / 4) (by decide)

/-- C6: a band with zero observations yields, without an error, exactly P
zeros followed by two zeros. -/
theorem claim_C6 (m : Minimizer) (pcs : List (List ℚ)) (tb lim : ℚ)
    (lvi : Option (List ℕ)) :
    predict_band_features m [] pcs tb lim lvi =
      List.replicate pcs.length (0 : ℝ) ++ [(0 : ℝ), (0 : ℝ)] := by
  simp only [predict_band_features, List.length_nil, if_pos]
  rw [length_get_feature_names, Nat.mul_div_cancel_left _ (by norm_num : 0 < 2),
    replicate_zero_split]

/-- C9 counterexample: with a single-band filter list the feature-value list
has 1 × (P + 2) entries while `get_feature_names` always produces
2 × (P + 2) names, so the claimed equality fails. -/
theorem claim_C9_counterexample :
    (extract_features_all_bands zeroMin [[0]] ["g"] [] 200 (1 / 4)).length ≠
      (get_feature_names 1).length := by
  rw [extract_features_all_bands_length, length_get_feature_names]
  decide

/-- C9 as amended: when the filter list has exactly two bands (as in every
call site, which uses ["g", "r"]), the feature-value list and the feature-name
list both have length bands × (P + 2). -/
theorem claim_C9_amended (m : Minimizer) (pcs : List (List ℚ))
    (filters : List String) (lc : List Obs) (lim tb : ℚ)
    (hf : filters.length = 2) :
    (extract_features_all_bands m pcs filters lc lim tb).length =
        filters.length * (pcs.length + 2) ∧
      (get_feature_names pcs.length).length =
        filters.length * (pcs.length + 2) := by
  refine ⟨extract_features_all_bands_length m pcs filters lc lim tb, ?_⟩
  rw [length_get_feature_names, hf]

/-- Witness for the amended C9 at a concrete input. -/
theorem claim_C9_amended_witness :
    (extract_features_all_bands zeroMin [[0]] ["g", "r"] [] 200 (1 / 4)).length = 6 ∧
      (get_feature_names 1).length = 6 := by
  have h := claim_C9_amended zeroMin [[0]] ["g", "r"] [] 200 (1 / 4) (by decide)
  simpa using h

/-- C10: every band contributes exactly P + 2 feature values, whichever of the
three branches of `predict_band_features` is taken. -/
theorem claim_C10 (m : Minimizer) (band_df : List Obs) (pcs : List (List ℚ))
    (tb lim : ℚ) (lvi : Option (List ℕ)) :
    (predict_band_features m band_df pcs tb lim lvi).length = pcs.length + 2 :=
  predict_band_features_length m band_df pcs tb lim lvi

/- ------------------------------------------------------------------ -/
/- Claim C8: linearity of calc_prediction in the coefficients.         -/
/- ------------------------------------------------------------------ -/

theorem vecAdd_cons (x y : ℚ) (a b : List ℚ) :
    vecAdd (x :: a) (y :: b) = (x + y) :: vecAdd a b := rfl

theorem vecSmul_cons (c x : ℚ) (a : List ℚ) :
    vecSmul c (x :: a) = c * x :: vecSmul c a := rfl

theorem vec_lin (a b x y : ℚ) :
    ∀ (u v t : List ℚ), u.length = v.length →
      vecAdd (vecAdd (vecSmul a u) (vecSmul b v)) (vecSmul (a * x + b * y) t) =
        vecAdd (vecSmul a (vecAdd u (vecSmul x t)))
          (vecSmul b (vecAdd v (vecSmul y t))) := by
  intro u
  induction u with
  | nil =>
    intro v t h
    have hv : v = [] := List.eq_nil_of_length_eq_zero h.symm
    subst hv
    simp [vecAdd, vecSmul]
  | cons u0 u' ih =>
    intro v t h
    cases v with
    | nil => simp at h
    | cons v0 v' =>
      cases t with
      | nil => simp [vecAdd, vecSmul]
      | cons t0 t' =>
        simp only [vecSmul_cons, vecAdd_cons]
        refine congrArg₂ (· :: ·) (by ring) ?_
        exact ih v' t' (by simpa using h)

theorem calc_prediction_go_lin (a b : ℚ) :
    ∀ (T : List (List ℚ)) (c1 c2 acc1 acc2 : List ℚ),
      c1.length = c2.length → acc1.length = acc2.length →
      calc_prediction_go (vecAdd (vecSmul a acc1) (vecSmul b acc2))
          (T.zip (vecAdd (vecSmul a c1) (vecSmul b c2))) =
        vecAdd (vecSmul a (calc_prediction_go acc1 (T.zip c1)))
          (vecSmul b (calc_prediction_go acc2 (T.zip c2))) := by
  intro T
  induction T with
  | nil =>
    intro c1 c2 acc1 acc2 hc hacc
    simp [calc_prediction_go]
  | cons t T' ih =>
    intro c1 c2 acc1 acc2 hc hacc
    cases c1 with
    | nil =>
      have hc2 : c2 = [] := List.eq_nil_of_length_eq_zero hc.symm
      subst hc2
      simp [vecAdd, vecSmul, calc_prediction_go]
    | cons x c1' =>
      cases c2 with
      | nil => simp at hc
      | cons y c2' =>
        simp only [vecSmul_cons, vecAdd_cons, List.zip_cons_cons,
          calc_prediction_go]
        rw [vec_lin a b x y acc1 acc2 t hacc]
        refine ih c1' c2' _ _ (by simpa using hc) ?_
        simp [vecAdd, vecSmul, hacc]

theorem vecAdd_smul_zero_replicate (a b : ℚ) (n : ℕ) :
    vecAdd (vecSmul a (List.replicate n 0)) (vecSmul b (List.replicate n 0)) =
      List.replicate n (0 : ℚ) := by
  induction n with
  | zero => rfl
  | succ k ih =>
    simp only [List.replicate_succ, vecSmul_cons, vecAdd_cons, ih, mul_zero,
      add_zero]

/-- C8: `calc_prediction` is linear in the coefficient vector - for template
matrix T and coefficient vectors of length P,
`calc_prediction (a·c1 + b·c2) T = a·calc_prediction c1 T + b·calc_prediction c2 T`. -/
theorem claim_C8 (pcs_arr : List (List ℚ)) (c1 c2 : List ℚ) (a b : ℚ)
    (h1 : c1.length = pcs_arr.length) (h2 : c2.length = pcs_arr.length) :
    calc_prediction (vecAdd (vecSmul a c1) (vecSmul b c2)) pcs_arr =
      vecAdd (vecSmul a (calc_prediction c1 pcs_arr))
        (vecSmul b (calc_prediction c2 pcs_arr)) := by
  unfold calc_prediction
  have h := calc_prediction_go_lin a b pcs_arr c1 c2
    (List.replicate (pcs_arr.headD []).length 0)
    (List.replicate (pcs_arr.headD []).length 0) (h1.trans h2.symm) rfl
  rwa [vecAdd_smul_zero_replicate] at h

/-- Witness for C8 at a concrete input. -/
theorem claim_C8_witness :
    calc_prediction (vecAdd (vecSmul 2 [1, 0, 0]) (vecSmul 3 [0, 1, 0])) pcs3 =
      vecAdd (vecSmul 2 (calc_prediction [1, 0, 0] pcs3))
        (vecSmul 3 (calc_prediction [0, 1, 0] pcs3)) :=
  claim_C8 pcs3 [1, 0, 0] [0, 1, 0] 2 3 (by rfl) (by rfl)

/- ------------------------------------------------------------------ -/
/- Claim C3: mapped indices stay inside the template grid.             -/
/- ------------------------------------------------------------------ -/

theorem roundTiesEven_sub_le (q : ℚ) : q - 1 / 2 ≤ (roundTiesEven q : ℚ) := by
  have hf : ((⌊q⌋ : ℤ) : ℚ) ≤ q := Int.floor_le q
  have hf2 : q < ((⌊q⌋ : ℤ) : ℚ) + 1 := Int.lt_floor_add_one q
  simp only [roundTiesEven]
  split_ifs <;> push_cast <;> linarith

theorem roundTiesEven_le_add (q : ℚ) : (roundTiesEven q : ℚ) ≤ q + 1 / 2 := by
  have hf : ((⌊q⌋ : ℤ) : ℚ) ≤ q := Int.floor_le q
  have hf2 : q < ((⌊q⌋ : ℤ) : ℚ) + 1 := Int.lt_floor_add_one q
  simp only [roundTiesEven]
  split_ifs <;> push_cast <;> linarith

/-- C3: every index that `predict_band_features` computes for an observation
retained by the window selection lies in [0, N-1], so every `np.take` lookup
of the length-N predicted curve in `calc_loss` and `calc_residual` is in
bounds. -/
theorem claim_C3 (bd : List Obs) (tb : ℚ) (npts : ℕ) (i : ℤ)
    (htb : 0 < tb) (hn : 2 ≤ npts)
    (hi : i ∈ map_dates_to_arr_index (windowed_band bd tb npts)
      (mid_point_date bd) tb npts) :
    0 ≤ i ∧ i ≤ (npts : ℤ) - 1 ∧ i.toNat < npts := by
  simp only [map_dates_to_arr_index, List.mem_map] at hi
  obtain ⟨o, ho, hio⟩ := hi
  simp only [windowed_band, List.mem_filter, decide_eq_true_eq] at ho
  obtain ⟨-, hlo, hhi⟩ := ho
  subst hio
  simp only [date_index]
  set x := (o.mjd - mid_point_date bd) / tb + ((npts : ℚ) - 1) / 2 with hx
  have hd1 : -(((npts : ℚ) - 1) / 2) * tb < o.mjd - mid_point_date bd := by
    nlinarith [hlo]
  have hd2 : o.mjd - mid_point_date bd < ((npts : ℚ) - 1) / 2 * tb := by
    nlinarith [hhi]
  have hq1 : -(((npts : ℚ) - 1) / 2) < (o.mjd - mid_point_date bd) / tb :=
    (lt_div_iff₀ htb).mpr hd1
  have hq2 : (o.mjd - mid_point_date bd) / tb < ((npts : ℚ) - 1) / 2 :=
    (div_lt_iff₀ htb).mpr hd2
  have hxpos : 0 < x := by rw [hx]; linarith
  have hxlt : x < (npts : ℚ) - 1 := by rw [hx]; linarith
  have h1 := roundTiesEven_sub_le x
  have h2 := roundTiesEven_le_add x
  have hr0 : 0 ≤ roundTiesEven x := by
    by_contra hneg
    push_neg at hneg
    have hneg1 : roundTiesEven x ≤ -1 := by omega
    have : ((roundTiesEven x : ℤ) : ℚ) ≤ -1 := by exact_mod_cast hneg1
    linarith
  have hrle : roundTiesEven x ≤ (npts : ℤ) - 1 := by
    by_contra hgt
    push_neg at hgt
    have hgt1 : (npts : ℤ) ≤ roundTiesEven x := by omega
    have : ((npts : ℤ) : ℚ) ≤ ((roundTiesEven x : ℤ) : ℚ) := by exact_mod_cast hgt1
    push_cast at this
    linarith
  exact ⟨hr0, hrle, by omega⟩

/-- Witness for C3 at a concrete input: the single retained observation of
`c1bd` maps to index 1 of the length-3 grid. -/
theorem claim_C3_witness :
    (1 : ℤ) ∈ map_dates_to_arr_index (windowed_band c1bd (1 / 4) 3)
        (mid_point_date c1bd) (1 / 4) 3 ∧
      (0 ≤ (1 : ℤ) ∧ (1 : ℤ) ≤ ((3 : ℕ) : ℤ) - 1 ∧ (1 : ℤ).toNat < 3) := by
  have hmem : (1 : ℤ) ∈ map_dates_to_arr_index (windowed_band c1bd (1 / 4) 3)
      (mid_point_date c1bd) (1 / 4) 3 :=
    of_decide_eq_true (by with_unfolding_all rfl)
  exact ⟨hmem, claim_C3 c1bd (1 / 4) 3 1 (by norm_num) (by norm_num) hmem⟩

/- ------------------------------------------------------------------ -/
/- Claim C2: the loss formula and the regularization weight.           -/
/- ------------------------------------------------------------------ -/

theorem npArgmax_lt_length : ∀ l : List ℚ, l ≠ [] → npArgmax l < l.length := by
  intro l
  induction l with
  | nil => intro h; exact absurd rfl h
  | cons a as ih =>
    intro _
    cases as with
    | nil => simp [npArgmax]
    | cons b bs =>
      simp only [npArgmax]
      split
      · have := ih (by simp)
        simpa using Nat.succ_lt_succ this
      · simp

theorem le_getD_npArgmax : ∀ l : List ℚ, ∀ x ∈ l, x ≤ l.getD (npArgmax l) 0 := by
  intro l
  induction l with
  | nil => intro x hx; simp at hx
  | cons a as ih =>
    intro x hx
    cases as with
    | nil =>
      have : x = a := by simpa using hx
      simp [npArgmax, this]
    | cons b bs =>
      simp only [npArgmax]
      by_cases h : (b :: bs).getD (npArgmax (b :: bs)) 0 > a
      · rw [if_pos h]
        rw [List.getD_cons_succ]
        rcases List.mem_cons.mp hx with hxa | hxtail
        · exact hxa ▸ le_of_lt h
        · exact ih x hxtail
      · rw [if_neg h]
        rw [List.getD_cons_zero]
        rcases List.mem_cons.mp hx with hxa | hxtail
        · exact le_of_eq hxa
        · exact le_trans (ih x hxtail) (not_lt.mp h)

theorem getD_map_of_lt {α β : Type} (f : α → β) (dβ : β) (dα : α) :
    ∀ (l : List α) (j : ℕ), j < l.length →
      (l.map f).getD j dβ = f (l.getD j dα) := by
  intro l
  induction l with
  | nil => intro j hj; simp at hj
  | cons a as ih =>
    intro j hj
    cases j with
    | zero => rfl
    | succ k =>
      simp only [List.map_cons, List.getD_cons_succ]
      exact ih k (by simpa using hj)

theorem getD_eq_get {α : Type} (d : α) :
    ∀ (l : List α) (j : ℕ) (h : j < l.length), l.getD j d = l.get ⟨j, h⟩ := by
  intro l
  induction l with
  | nil => intro j h; simp at h
  | cons a as ih =>
    intro j h
    cases j with
    | zero => rfl
    | succ k => exact ih k (by simpa using h)

theorem band_peak_mem_windowed (bd : List Obs) (tb : ℚ) (npts : ℕ)
    (hbd : bd ≠ []) (htb : 0 < tb) (hn : 2 ≤ npts) :
    ∃ p ∈ windowed_band bd tb npts,
      p.fluxcal = band_max_flux bd ∧ p.mjd = mid_point_date bd := by
  have hlen : band_max_loc bd < bd.length := by
    have h1 : band_fluxes bd ≠ [] := by
      simpa [band_fluxes] using hbd
    have := npArgmax_lt_length (band_fluxes bd) h1
    simpa [band_fluxes, band_max_loc] using this
  refine ⟨bd.get ⟨band_max_loc bd, hlen⟩, ?_, ?_, ?_⟩
  · simp only [windowed_band, List.mem_filter]
    refine ⟨List.get_mem bd _ hlen, ?_⟩
    rw [decide_eq_true_eq]
    have hmid : (bd.get ⟨band_max_loc bd, hlen⟩).mjd = mid_point_date bd := by
      rw [mid_point_date, getD_map_of_lt Obs.mjd 0 (bd.get ⟨band_max_loc bd, hlen⟩) bd _ hlen,
        getD_eq_get]
    rw [hmid]
    have hd : 0 < tb * ((npts : ℚ) - 1) := by
      have : (2 : ℚ) ≤ (npts : ℚ) := by exact_mod_cast hn
      nlinarith
    constructor <;> linarith
  · rw [band_max_flux, band_fluxes,
      getD_map_of_lt Obs.fluxcal 0 (bd.get ⟨band_max_loc bd, hlen⟩) bd _ hlen,
      getD_eq_get]
  · rw [mid_point_date,
      getD_map_of_lt Obs.mjd 0 (bd.get ⟨band_max_loc bd, hlen⟩) bd _ hlen,
      getD_eq_get]

theorem windowed_peak_spec (bd : List Obs) (tb : ℚ) (npts : ℕ)
    (hbd : bd ≠ []) (htb : 0 < tb) (hn : 2 ≤ npts) :
    ∃ o ∈ windowed_band bd tb npts,
      o.fluxcal = band_max_flux bd ∧ (∀ q ∈ bd, q.fluxcal ≤ o.fluxcal) ∧
      regularization_weight bd tb npts = (o.fluxcal / o.fluxcalerr) ^ 2 := by
  obtain ⟨p, hp, hpf, -⟩ := band_peak_mem_windowed bd tb npts hbd htb hn
  have hbd2 : windowed_band bd tb npts ≠ [] := List.ne_nil_of_mem hp
  have hj : npArgmax (band_fluxes (windowed_band bd tb npts)) <
      (windowed_band bd tb npts).length := by
    have h1 : band_fluxes (windowed_band bd tb npts) ≠ [] := by
      simpa [band_fluxes] using hbd2
    have := npArgmax_lt_length _ h1
    simpa [band_fluxes] using this
  set j := npArgmax (band_fluxes (windowed_band bd tb npts)) with hjdef
  set o := (windowed_band bd tb npts).get ⟨j, hj⟩ with hodef
  have hof : (band_fluxes (windowed_band bd tb npts)).getD j 0 = o.fluxcal := by
    rw [band_fluxes, getD_map_of_lt Obs.fluxcal 0 o _ _ hj, getD_eq_get]
  have hoe : ((windowed_band bd tb npts).map Obs.fluxcalerr).getD j 0 =
      o.fluxcalerr := by
    rw [getD_map_of_lt Obs.fluxcalerr 0 o _ _ hj, getD_eq_get]
  have homem : o ∈ windowed_band bd tb npts := List.get_mem _ _ hj
  have hmax2 : ∀ x ∈ band_fluxes (windowed_band bd tb npts), x ≤ o.fluxcal := by
    intro x hx
    rw [← hof]
    exact le_getD_npArgmax _ x hx
  have hmaxbd : ∀ q ∈ bd, q.fluxcal ≤ band_max_flux bd := by
    intro q hq
    exact le_getD_npArgmax (band_fluxes bd) q.fluxcal
      (List.mem_map_of_mem Obs.fluxcal hq)
  have hsub : o ∈ bd := by
    have h := homem
    simp only [windowed_band] at h
    exact List.mem_of_mem_filter h
  have heq : o.fluxcal = band_max_flux bd := by
    refine le_antisymm (hmaxbd o hsub) ?_
    rw [← hpf]
    exact hmax2 p.fluxcal (List.mem_map_of_mem Obs.fluxcal hp)
  refine ⟨o, homem, heq, fun q hq => heq ▸ hmaxbd q hq, ?_⟩
  simp only [regularization_weight]
  rw [hoe, ← heq]

theorem sum_zipWith_eq_range (look : ℤ → ℚ) :
    ∀ (ms : List ℤ) (y σ : List ℚ), ms.length = y.length → σ.length = y.length →
      (List.zipWith (fun d e => d ^ 2 / e ^ 2)
        (List.zipWith (fun a b => a - b) (ms.map look) y) σ).sum =
      ((List.range y.length).map
        (fun j => ((look (ms.getD j 0) - y.getD j 0) / σ.getD j 0) ^ 2)).sum := by
  intro ms
  induction ms with
  | nil =>
    intro y σ h1 h2
    have hy : y = [] := List.eq_nil_of_length_eq_zero h1.symm
    subst hy
    simp
  | cons i ms' ih =>
    intro y σ h1 h2
    cases y with
    | nil => simp at h1
    | cons b y' =>
      cases σ with
      | nil => simp at h2
      | cons e σ' =>
        simp only [List.map_cons, List.zipWith_cons_cons, List.sum_cons,
          List.length_cons]
        rw [List.range_succ_eq_map]
        simp only [List.map_cons, List.sum_cons, List.map_map, Function.comp,
          List.getD_cons_succ, List.getD_cons_zero]
        rw [div_pow]
        congr 1
        exact ih y' σ' (by simpa using h1) (by simpa using h2)

/-- C2: `calc_loss` computes exactly the spec's formula
`Σ_j ((pred[m_j] - y_j) / σ_j)^2 + w × (Σ_{i ∈ [1,2]} c_i^2 + [c_0 < 0] c_0^2)`,
and the regularization weight that `predict_band_features` passes is
`(peak_flux / peak_flux_error)^2` taken from the unnormalized peak
observation. -/
theorem claim_C2 (coeff : List ℚ) (pcs_arr : List (List ℚ)) (y σ : List ℚ)
    (ms : List ℤ) (w : ℚ) (bd : List Obs) (tb : ℚ) (npts : ℕ)
    (hc : coeff.length = pcs_arr.length)
    (hm : ms.length = y.length) (he : σ.length = y.length)
    (hbd : bd ≠ []) (htb : 0 < tb) (hn : 2 ≤ npts) :
    calc_loss coeff pcs_arr y σ ms w (some [1, 2]) =
        spec_loss coeff pcs_arr y σ ms w ∧
      ∃ o ∈ windowed_band bd tb npts,
        o.fluxcal = band_max_flux bd ∧ (∀ q ∈ bd, q.fluxcal ≤ o.fluxcal) ∧
        regularization_weight bd tb npts = (o.fluxcal / o.fluxcalerr) ^ 2 := by
  constructor
  · simp only [calc_loss, spec_loss]
    rw [sum_zipWith_eq_range (fun i => npTake (calc_prediction coeff pcs_arr) i)
      ms y σ hm he]
    split_ifs <;> ring
  · exact windowed_peak_spec bd tb npts hbd htb hn

/-- Witness for C2 at a concrete input. -/
theorem claim_C2_witness :
    calc_loss [1, 1, 1] pcs3 [1, 1] [1, 1] [0, 1] 5 (some [1, 2]) =
        spec_loss [1, 1, 1] pcs3 [1, 1] [1, 1] [0, 1] 5 ∧
      ∃ o ∈ windowed_band c1bd (1 / 4) 3,
        o.fluxcal = band_max_flux c1bd ∧ (∀ q ∈ c1bd, q.fluxcal ≤ o.fluxcal) ∧
        regularization_weight c1bd (1 / 4) 3 = (o.fluxcal / o.fluxcalerr) ^ 2 :=
  claim_C2 [1, 1, 1] pcs3 [1, 1] [1, 1] [0, 1] 5 c1bd (1 / 4) 3 (by rfl)
    (by rfl) (by rfl) (by simp [c1bd]) (by norm_num) (by norm_num)

/- ------------------------------------------------------------------ -/
/- Claim C7: rescaling flux and error by a positive constant.          -/
/- ------------------------------------------------------------------ -/

theorem band_fluxes_scale (k : ℚ) (bd : List Obs) :
    band_fluxes (scaleObs k bd) = (band_fluxes bd).map (fun x => k * x) := by
  simp [band_fluxes, scaleObs, List.map_map, Function.comp]

theorem band_errs_scale (k : ℚ) (bd : List Obs) :
    (scaleObs k bd).map Obs.fluxcalerr =
      (bd.map Obs.fluxcalerr).map (fun x => k * x) := by
  simp [scaleObs, List.map_map, Function.comp]

theorem band_mjd_scale (k : ℚ) (bd : List Obs) :
    (scaleObs k bd).map Obs.mjd = bd.map Obs.mjd := by
  simp [scaleObs, List.map_map, Function.comp]

theorem getD_map_mul (k : ℚ) : ∀ (l : List ℚ) (i : ℕ),
    (l.map (fun x => k * x)).getD i 0 = k * l.getD i 0 := by
  intro l
  induction l with
  | nil => intro i; simp
  | cons a as ih =>
    intro i
    cases i with
    | zero => rfl
    | succ n =>
      simp only [List.map_cons, List.getD_cons_succ]
      exact ih n

theorem npArgmax_map_mul (k : ℚ) (hk : 0 < k) :
    ∀ l : List ℚ, npArgmax (l.map (fun x => k * x)) = npArgmax l := by
  intro l
  induction l with
  | nil => rfl
  | cons a as ih =>
    cases as with
    | nil => rfl
    | cons b bs =>
      have hmap : (b :: bs).map (fun x => k * x) =
          k * b :: bs.map (fun x => k * x) := rfl
      simp only [List.map_cons, npArgmax]
      rw [← List.map_cons]
      rw [ih]
      rw [getD_map_mul k]
      simp only [gt_iff_lt, mul_lt_mul_left hk]

theorem band_max_loc_scale (k : ℚ) (hk : 0 < k) (bd : List Obs) :
    band_max_loc (scaleObs k bd) = band_max_loc bd := by
  rw [band_max_loc, band_fluxes_scale, npArgmax_map_mul k hk, band_max_loc]

theorem band_max_flux_scale (k : ℚ) (hk : 0 < k) (bd : List Obs) :
    band_max_flux (scaleObs k bd) = k * band_max_flux bd := by
  rw [band_max_flux, band_fluxes_scale, band_max_loc_scale k hk,
    getD_map_mul k, band_max_flux]

theorem mid_point_date_scale (k : ℚ) (hk : 0 < k) (bd : List Obs) :
    mid_point_date (scaleObs k bd) = mid_point_date bd := by
  rw [mid_point_date, band_mjd_scale, band_max_loc_scale k hk, mid_point_date]

theorem windowed_band_scale (k : ℚ) (hk : 0 < k) (bd : List Obs) (tb : ℚ)
    (npts : ℕ) :
    windowed_band (scaleObs k bd) tb npts =
      scaleObs k (windowed_band bd tb npts) := by
  simp only [windowed_band]
  rw [mid_point_date_scale k hk]
  simp only [scaleObs]
  rw [List.filter_map]
  congr 1

theorem windowed_length_scale (k : ℚ) (hk : 0 < k) (bd : List Obs) (tb : ℚ)
    (npts : ℕ) :
    (windowed_band (scaleObs k bd) tb npts).length =
      (windowed_band bd tb npts).length := by
  rw [windowed_band_scale k hk]
  simp [scaleObs]

theorem normalized_flux_scale (k : ℚ) (hk : 0 < k) (bd : List Obs) (tb : ℚ)
    (npts : ℕ) :
    (band_fluxes (windowed_band (scaleObs k bd) tb npts)).map
        (fun f => f / band_max_flux (scaleObs k bd)) =
      (band_fluxes (windowed_band bd tb npts)).map
        (fun f => f / band_max_flux bd) := by
  rw [windowed_band_scale k hk, band_max_flux_scale k hk, band_fluxes_scale,
    List.map_map]
  congr 1
  funext x
  simp only [Function.comp]
  exact mul_div_mul_left x (band_max_flux bd) (ne_of_gt hk)

theorem normalized_err_scale (k : ℚ) (hk : 0 < k) (bd : List Obs) (tb : ℚ)
    (npts : ℕ) :
    ((windowed_band (scaleObs k bd) tb npts).map Obs.fluxcalerr).map
        (fun e => e / band_max_flux (scaleObs k bd)) =
      ((windowed_band bd tb npts).map Obs.fluxcalerr).map
        (fun e => e / band_max_flux bd) := by
  rw [windowed_band_scale k hk, band_max_flux_scale k hk, band_errs_scale,
    List.map_map]
  congr 1
  funext x
  simp only [Function.comp]
  exact mul_div_mul_left x (band_max_flux bd) (ne_of_gt hk)

theorem idx_map_scale (k : ℚ) (hk : 0 < k) (bd : List Obs) (tb : ℚ)
    (npts : ℕ) :
    map_dates_to_arr_index (windowed_band (scaleObs k bd) tb npts)
        (mid_point_date (scaleObs k bd)) tb npts =
      map_dates_to_arr_index (windowed_band bd tb npts)
        (mid_point_date bd) tb npts := by
  rw [windowed_band_scale k hk, mid_point_date_scale k hk]
  simp only [map_dates_to_arr_index, scaleObs, List.map_map]
  rfl

theorem regularization_weight_scale (k : ℚ) (hk : 0 < k) (bd : List Obs)
    (tb : ℚ) (npts : ℕ) :
    regularization_weight (scaleObs k bd) tb npts =
      regularization_weight bd tb npts := by
  simp only [regularization_weight]
  rw [windowed_band_scale k hk, band_max_flux_scale k hk, band_errs_scale,
    band_fluxes_scale, npArgmax_map_mul k hk, getD_map_mul k,
    mul_div_mul_left _ _ (ne_of_gt hk)]

/-- C7 as amended: uniformly rescaling flux and flux error by a positive `k`
leaves the residual entry of `predict_band_features` unchanged, provided the
flux-threshold check is unaffected by the rescaling (which holds in
particular whenever both the original and the rescaled peak flux clear the
threshold). -/
theorem claim_C7_amended (m : Minimizer) (k : ℚ) (bd : List Obs)
    (pcs : List (List ℚ)) (tb lim : ℚ) (lvi : Option (List ℕ))
    (hk : 0 < k)
    (hgate : band_max_flux bd > lim ↔ k * band_max_flux bd > lim) :
    (predict_band_features m (scaleObs k bd) pcs tb lim lvi).get? pcs.length =
      (predict_band_features m bd pcs tb lim lvi).get? pcs.length := by
  by_cases hbd : bd = []
  · subst hbd; rfl
  · have hsbd : scaleObs k bd ≠ [] := by simp [scaleObs, hbd]
    rw [predict_band_features_of_ne_nil m _ pcs tb lim lvi hbd,
      predict_band_features_of_ne_nil m _ pcs tb lim lvi hsbd]
    have hgates : (band_max_flux (scaleObs k bd) > lim ∧
        2 ≤ (windowed_band (scaleObs k bd) tb (pcs.headD []).length).length) ↔
        (band_max_flux bd > lim ∧
        2 ≤ (windowed_band bd tb (pcs.headD []).length).length) := by
      rw [band_max_flux_scale k hk, windowed_length_scale k hk]
      exact and_congr hgate.symm Iff.rfl
    by_cases hg : band_max_flux bd > lim ∧
        2 ≤ (windowed_band bd tb (pcs.headD []).length).length
    · rw [if_pos hg, if_pos (hgates.mpr hg)]
      simp only [fitted_band_features]
      rw [normalized_flux_scale k hk, normalized_err_scale k hk,
        idx_map_scale k hk, regularization_weight_scale k hk]
      have hlen : ((m.run ⟨List.replicate pcs.length ((1 : ℚ) / 2),
          List.replicate pcs.length ((-2 : ℚ), (2 : ℚ)), pcs,
          (band_fluxes (windowed_band bd tb (pcs.headD []).length)).map
            (fun f => f / band_max_flux bd),
          ((windowed_band bd tb (pcs.headD []).length).map Obs.fluxcalerr).map
            (fun e => e / band_max_flux bd),
          map_dates_to_arr_index (windowed_band bd tb (pcs.headD []).length)
            (mid_point_date bd) tb (pcs.headD []).length,
          regularization_weight bd tb (pcs.headD []).length,
          lvi⟩).map (Rat.cast : ℚ → ℝ)).length = pcs.length := by
        rw [List.length_map, Minimizer.run_length]
        simp
      rw [List.get?_append_right (le_of_eq hlen),
        List.get?_append_right (le_of_eq hlen), hlen, Nat.sub_self]
      rfl
    · rw [if_neg (fun h => hg (hgates.mp h)), if_neg hg]

theorem predict_cex_scaled :
    (predict_band_features zeroMin (scaleObs (1 / 2) cexBd) pcs1 (1 / 4) 200
      none).get? pcs1.length = some (0 : ℝ) := by
  with_unfolding_all rfl

theorem predict_cex_fitted :
    (predict_band_features zeroMin cexBd pcs1 (1 / 4) 200 none).get?
      pcs1.length = some (Real.sqrt ((90000 : ℚ) : ℝ)) := by
  with_unfolding_all rfl

/-- C7 counterexample: halving all fluxes and errors of `cexBd` drops its peak
flux from 300 to 150, below the threshold 200, so the rescaled band takes the
no-fit branch with residual exactly 0 while the original band's residual is
`√90000 ≠ 0` - whatever coefficients the solver returns, because the two
retained observations share one grid index yet the zero-coefficient
prediction misses their normalized flux. -/
theorem claim_C7_counterexample :
    ¬ (∀ (m : Minimizer) (k : ℚ) (bd : List Obs) (pcs : List (List ℚ))
        (tb lim : ℚ) (lvi : Option (List ℕ)), 0 < k →
        (predict_band_features m (scaleObs k bd) pcs tb lim lvi).get?
            pcs.length =
          (predict_band_features m bd pcs tb lim lvi).get? pcs.length) := by
  intro h
  have h1 := h zeroMin (1 / 2) cexBd pcs1 (1 / 4) 200 none (by norm_num)
  rw [predict_cex_scaled, predict_cex_fitted] at h1
  have h2 : (0 : ℝ) = Real.sqrt ((90000 : ℚ) : ℝ) := Option.some.inj h1
  have h3 : (0 : ℝ) < Real.sqrt ((90000 : ℚ) : ℝ) := by
    apply Real.sqrt_pos.mpr
    exact_mod_cast (by norm_num : (0 : ℚ) < 90000)
  linarith

/-- Witness for the amended C7 at a concrete input: doubling the single
bright observation keeps the gate outcome, and the residual entry is
unchanged. -/
theorem claim_C7_amended_witness :
    (0 : ℚ) < 2 ∧
      (band_max_flux c1bd > 200 ↔ 2 * band_max_flux c1bd > 200) ∧
      (predict_band_features zeroMin (scaleObs 2 c1bd) pcs3 (1 / 4) 200
          (some [1, 2])).get? pcs3.length =
        (predict_band_features zeroMin c1bd pcs3 (1 / 4) 200
          (some [1, 2])).get? pcs3.length := by
  have hf : band_max_flux c1bd = 500 := by with_unfolding_all rfl
  refine ⟨by norm_num, ?_, ?_⟩
  · rw [hf]; norm_num
  · exact claim_C7_amended zeroMin 2 c1bd pcs3 (1 / 4) 200 (some [1, 2])
      (by norm_num) (by rw [hf]; norm_num)
